import Mathlib

/-!
Verification of the Border0 auto-provisioning core.

The definitions below are a shallow embedding of the reconciliation core:
the Border0 API client (`src/border0.ts`: `Border0Client`) and the
provisioning/deprovisioning/maintenance logic of `src/index.ts`.  The remote
Border0 service itself is not part of the repository; its visible behaviour
(resource storage, fresh id assignment, name-filtered listing, 404 on missing
resources) is modelled from the spec's interface section and marked as such.
Strings are handled through `String.data` so that every definition evaluates
inside the kernel.
-/

/-- Decidable equality of `Except` results, so that witnesses evaluate by
`decide`. -/
instance {ε α : Type} [DecidableEq ε] [DecidableEq α] : DecidableEq (Except ε α) := fun x y =>
  match x, y with
  | .ok a, .ok b =>
    if h : a = b then .isTrue (congrArg Except.ok h)
    else .isFalse (fun hh => h (Except.ok.inj hh))
  | .error a, .error b =>
    if h : a = b then .isTrue (congrArg Except.error h)
    else .isFalse (fun hh => h (Except.error.inj hh))
  | .ok _, .error _ => .isFalse (fun hh => Except.noConfusion hh)
  | .error _, .ok _ => .isFalse (fun hh => Except.noConfusion hh)

/-- JS `String.prototype.startsWith`, used by the source for the
`user-policy-` marker test. -/
def strStarts (s marker : String) : Bool := marker.data.isPrefixOf s.data

/-- JS `String.prototype.substring(0, n)`, used to build the short workload
id. -/
def strTake (s : String) (n : Nat) : String := String.mk (s.data.take n)

/-- Substring occurrence test on character lists. -/
def subListOf (sub : List Char) : List Char → Bool
  | [] => sub.isEmpty
  | c :: t => sub.isPrefixOf (c :: t) || subListOf sub t

/-- JS `String.prototype.includes`: the repository's client iteration filters
socket listings with `s.name.includes(namePattern)`. -/
def strHasSub (hay sub : String) : Bool := subListOf sub.data hay.data

/-- JS `email.replace(/[^a-zA-Z0-9]/g, '-')` from
`Border0Client.attachPolicies`. -/
def sanitizeEmail (e : String) : String :=
  String.mk (e.data.map (fun c => if c.isAlphanum then c else '-'))

/-- Deterministic personal policy name `user-policy-${sanitizedEmail}` from
`Border0Client.attachPolicies`. -/
def personalPolicyName (email : String) : String :=
  "user-policy-" ++ sanitizeEmail email

/-- Deterministic socket name `${type}-${shortId}` built in
`performProvision` (src/index.ts). -/
def detSocketName (ty workloadId : String) : String :=
  ty ++ "-" ++ strTake workloadId 8

/-- A remote socket (endpoint) record. -/
structure Socket where
  id : String
  name : String
  socket_type : String
  connector_ids : List String
  upstream_host : String
  upstream_port : Nat
  ssh_authentication_type : String
  ssh_username : String
  dnsname : String
deriving DecidableEq

/-- A remote policy record; `emails` is `policy_data.condition.who.email`. -/
structure Policy where
  id : String
  name : String
  emails : List String
deriving DecidableEq

/-- The remote Border0 service state.  Modelled from the spec: the service
stores sockets and policies keyed by opaque ids, keeps the policy-to-socket
attachment relation (spec section 3), assigns fresh ids on creation
(`nextId` counter), and may deny policy creation with a permission error
(`denyPolicyCreate` simulates the 403 of spec section 4.3). -/
structure RemoteState where
  sockets : List Socket
  policies : List Policy
  attachments : List (String × String)
  nextId : Nat
  denyPolicyCreate : Bool
deriving DecidableEq

/-- Attachments of one policy: the pairs of `attachments` carrying its id.
This is what the service reports as the policy's `socket_ids`. -/
def pAtt (st : RemoteState) (pid : String) : List (String × String) :=
  st.attachments.filter (fun a => a.1 == pid)

/-- Policies attached to one socket, as embedded in socket list responses
(`s.policies` read by `performDeprovision`). -/
def attachedPolicies (st : RemoteState) (sid : String) : List Policy :=
  st.policies.filter (fun p => st.attachments.contains (p.id, sid))

/-- `Border0Client.createSocket`: POST /socket with the built payload.
Modelled from the spec: the service stores the socket, assigns a fresh
opaque id and a public address (`dnsname`).  `buildUpstreamConfig` fills the
ssh certificate fields exactly for ssh sockets. -/
def createSocket (name ty connectorId ip : String) (port : Nat) (sshUser : String)
    (st : RemoteState) : RemoteState × Socket :=
  let s : Socket :=
    { id := "sock-" ++ toString st.nextId
      name := name
      socket_type := ty
      connector_ids := [connectorId]
      upstream_host := ip
      upstream_port := port
      ssh_authentication_type := if ty == "ssh" then "border0_certificate" else ""
      ssh_username := if ty == "ssh" then sshUser else ""
      dnsname := name ++ ".border0.io" }
  ({ st with sockets := st.sockets ++ [s], nextId := st.nextId + 1 }, s)

/-- `Border0Client.deleteSocket`: throws before any HTTP request when the id
is missing; otherwise the service removes the socket and its attachments. -/
def deleteSocket (sid : String) (st : RemoteState) : Except String RemoteState :=
  if sid = "" then .error "socket_id is required"
  else .ok { st with
    sockets := st.sockets.filter (fun s => s.id != sid)
    attachments := st.attachments.filter (fun a => a.2 != sid) }

/-- `Border0Client.listSocketsByName`: GET /sockets with a `name` query
parameter.  Modelled from the spec: the service filters by substring match,
as the repository's other client iteration does with `name.includes`; each
listed socket embeds its attached policies. -/
def listSocketsByName (name : String) (st : RemoteState) : List (Socket × List Policy) :=
  (st.sockets.filter (fun s => strHasSub s.name name)).map
    (fun s => (s, attachedPolicies st s.id))

/-- `Border0Client.findSocketByName`: list, then exact-name match. -/
def findSocketByName (name : String) (st : RemoteState) : Option Socket :=
  ((listSocketsByName name st).find? (fun it => it.1.name == name)).map (·.1)

/-- Partial update payload for PUT /socket/{id}.  `setupSocket` never sends
`socket_type`, so the client's `upstream_configuration` wrapping branch is
not taken. -/
structure UpdatePayload where
  upstream_host : Option String
  upstream_port : Option Nat
  ssh_authentication_type : Option String
  ssh_username : Option String
deriving DecidableEq

/-- Field-wise application of a partial update to a socket record. -/
def applyUpdate (p : UpdatePayload) (s : Socket) : Socket :=
  { s with
    upstream_host := p.upstream_host.getD s.upstream_host
    upstream_port := p.upstream_port.getD s.upstream_port
    ssh_authentication_type := p.ssh_authentication_type.getD s.ssh_authentication_type
    ssh_username := p.ssh_username.getD s.ssh_username }

/-- `Border0Client.updateSocket`: guard on a missing id, then PUT; the
service merges the payload into the addressed socket and returns it, or
answers 404 (an error) when the socket does not exist. -/
def updateSocket (sid : String) (p : UpdatePayload) (st : RemoteState) :
    Except String (RemoteState × Socket) :=
  if sid = "" then .error "socket_id is required"
  else
    let sockets := st.sockets.map (fun s => if s.id == sid then applyUpdate p s else s)
    match sockets.find? (fun s => s.id == sid) with
    | some s => .ok ({ st with sockets := sockets }, s)
    | none => .error "socket not found"

/-- `Border0Client.findPolicyByName`: GET /policies/find?name=, exact name;
a 404 answer is translated to null. -/
def findPolicyByName (name : String) (st : RemoteState) : Option Policy :=
  st.policies.find? (fun p => p.name == name)

/-- `Border0Client.deletePolicy`: guard on a missing id, then DELETE; the
service removes the policy and its attachments. -/
def deletePolicy (pid : String) (st : RemoteState) : Except String RemoteState :=
  if pid = "" then .error "policy_id is required"
  else .ok { st with
    policies := st.policies.filter (fun p => p.id != pid)
    attachments := st.attachments.filter (fun a => a.1 != pid) }

/-- `Border0Client.getSocketCountByPolicy`: GET /policy/{id} and read
`socket_ids.length`; a 404 (missing policy) yields 0. -/
def getSocketCountByPolicy (pid : String) (st : RemoteState) : Nat :=
  match st.policies.find? (fun p => p.id == pid) with
  | none => 0
  | some _ => (pAtt st pid).length

/-- POST /policies from `Border0Client.attachPolicies`.  Modelled from the
spec: the service stores the policy under a fresh id, or denies creation
(permission error) when `denyPolicyCreate` holds. -/
def createPolicyRemote (name : String) (emails : List String) (st : RemoteState) :
    Except String (RemoteState × Policy) :=
  if st.denyPolicyCreate then .error "403 Forbidden"
  else
    let p : Policy := { id := "pol-" ++ toString st.nextId, name := name, emails := emails }
    .ok ({ st with policies := st.policies ++ [p], nextId := st.nextId + 1 }, p)

/-- One attachment added by a PUT /socket/{id}/policy `add` action.
Modelled from the spec: the attachment relationship is a set, so an already
present pair is not duplicated. -/
def addAttachment (pid sid : String) (atts : List (String × String)) :
    List (String × String) :=
  if atts.contains (pid, sid) then atts else atts ++ [(pid, sid)]

/-- The bulk attach call: every listed policy id is attached to the socket. -/
def bulkAttach (ids : List String) (sid : String) (st : RemoteState) : RemoteState :=
  { st with attachments := ids.foldl (fun acc pid => addAttachment pid sid acc) st.attachments }

/-- Personal-policy resolution step of `Border0Client.attachPolicies`:
starting from the copied `predefined_policy_ids`, find-or-create the
personal policy for a (truthy) principal email and push its id.  The
creation failure branch mirrors the source's try/catch: the error is logged
and swallowed, never rethrown. -/
def attachStep (email : Option String) (pre : List String) (st : RemoteState) :
    RemoteState × List String :=
  match email with
  | none => (st, pre)
  | some e =>
    if e = "" then (st, pre)
    else
      match findPolicyByName (personalPolicyName e) st with
      | some p => (st, pre ++ [p.id])
      | none =>
        match createPolicyRemote (personalPolicyName e) [e] st with
        | .ok (st1, p) => (st1, pre ++ [p.id])
        | .error _ => (st, pre)

/-- `Border0Client.attachPolicies`.  Returns the updated state together with
the id list carried by the bulk attach call (`none` when no call is made). -/
def attachPolicies (sid : String) (email : Option String) (pre : List String)
    (st : RemoteState) : Except String (RemoteState × Option (List String)) :=
  let out := attachStep email pre st
  if out.2.isEmpty then .ok (out.1, none)
  else .ok (bulkAttach out.2 sid out.1, some out.2)

/-- Whether a reconciliation call created or updated the endpoint. -/
inductive SetupAction where
  | created : SetupAction
  | updated : SetupAction
deriving DecidableEq

/-- `setupSocket` from `performProvision` (src/index.ts): find by exact
name; update upstream (plus ssh credential fields) when found, create
otherwise; then attach policies; return the resulting socket. -/
def setupSocket (connectorId sshUser : String) (email : Option String)
    (policies : List String) (name ty : String) (port : Nat) (ip : String)
    (st : RemoteState) : Except String (RemoteState × Socket × SetupAction) := do
  let border0Type := if ty == "web" then "http" else ty
  match findSocketByName name st with
  | some s =>
    let payload : UpdatePayload :=
      { upstream_host := some ip
        upstream_port := some port
        ssh_authentication_type :=
          if border0Type == "ssh" then some "border0_certificate" else none
        ssh_username := if border0Type == "ssh" then some sshUser else none }
    let (st1, s1) ← updateSocket s.id payload st
    let (st2, _) ← attachPolicies s1.id email policies st1
    return (st2, s1, .updated)
  | none =>
    let created := createSocket name border0Type connectorId ip port sshUser st
    let (st2, _) ← attachPolicies created.2.id email policies created.1
    return (st2, created.2, .created)

/-- Inner loop of `performDeprovision`: for each personal policy previously
attached to a deleted socket, delete it once its attachment count is zero;
a failing policy deletion is caught and logged only. -/
def policyCleanup : List Policy → RemoteState → RemoteState
  | [], st => st
  | p :: rest, st =>
    let st1 :=
      if getSocketCountByPolicy p.id st = 0 then
        match deletePolicy p.id st with
        | .ok st2 => st2
        | .error _ => st
      else st
    policyCleanup rest st1

/-- Socket loop of `performDeprovision`: snapshot the personal policies of
the listed socket, delete the socket, then eagerly clean up orphans. -/
def deprovGo : List (Socket × List Policy) → RemoteState → Except String RemoteState
  | [], st => .ok st
  | (s, pols) :: rest, st => do
    let personal := pols.filter (fun p => strStarts p.name "user-policy-")
    let st1 ← deleteSocket s.id st
    deprovGo rest (policyCleanup personal st1)

/-- `performDeprovision` (src/index.ts): list sockets by the 8-character
short id, run the deletion loop, return the number of listed sockets. -/
def performDeprovision (cid : String) (st : RemoteState) :
    Except String (RemoteState × Nat) := do
  let socks := listSocketsByName (strTake cid 8) st
  let st1 ← deprovGo socks st
  return (st1, socks.length)

/-- Result record of `Border0Client.performPolicyMaintenance`.  The
wall-clock `duration` (`Date.now()` differences) is not modellable and is
recorded as 0. -/
structure MaintStats where
  success : Bool
  duration : Nat
deriving DecidableEq

/-- One entry of the GET /policies listing, as the sweep reads it:
`socket_ids` is the optionally embedded attachment list. -/
structure PolicyItem where
  id : String
  name : String
  socket_ids : Option (List String)
deriving DecidableEq

/-- Listing entry for one policy.  Modelled from the spec: the service may
or may not embed the `socket_ids` count field (`embed` selects the shape). -/
def policyItemOf (embed : Bool) (st : RemoteState) (p : Policy) : PolicyItem :=
  { id := p.id
    name := p.name
    socket_ids := if embed then some ((pAtt st p.id).map (·.2)) else none }

/-- Loop body of `performPolicyMaintenance`: for each listed policy whose
name carries the `user-policy-` marker, resolve the attachment count from
`socket_ids` when embedded (`??` fallback to `getSocketCountByPolicy`) and
delete the policy when the count is zero.  An error aborts the sweep, which
then reports failure. -/
def sweepGo : List PolicyItem → RemoteState → RemoteState × Bool
  | [], st => (st, true)
  | it :: rest, st =>
    if strStarts it.name "user-policy-" then
      let cnt := match it.socket_ids with
        | some l => l.length
        | none => getSocketCountByPolicy it.id st
      if cnt = 0 then
        match deletePolicy it.id st with
        | .ok st1 => sweepGo rest st1
        | .error _ => (st, false)
      else sweepGo rest st
    else sweepGo rest st

/-- `Border0Client.performPolicyMaintenance`: list all policies and run the
orphan sweep, reporting success and duration. -/
def performPolicyMaintenance (embed : Bool) (st : RemoteState) :
    RemoteState × MaintStats :=
  let out := sweepGo (st.policies.map (policyItemOf embed st)) st
  (out.1, { success := out.2, duration := 0 })

/-- The orphan criterion of the sweep, read off the state: a personal name
together with an attachment count of zero. -/
def isOrphanPersonal (st : RemoteState) (p : Policy) : Bool :=
  strStarts p.name "user-policy-" && (pAtt st p.id).length == 0

/-- Which policies a teardown over the socket set `ss` deletes, expressed
on a bare attachment relation: personal policies with at least one
attachment, all of whose attachments point into `ss`. -/
def delPred (att : List (String × String)) (ss : List Socket) (p : Policy) : Bool :=
  strStarts p.name "user-policy-" &&
    !(att.filter (fun a => a.1 == p.id)).isEmpty &&
    (att.filter (fun a => a.1 == p.id)).all (fun a => ss.any (fun s => s.id == a.2))

/-- Which policies a teardown over the socket set `ss` deletes: personal
policies all of whose (at least one) attachments point into `ss`. -/
def teardownDeletes (st : RemoteState) (ss : List Socket) (p : Policy) : Bool :=
  delPred st.attachments ss p

/-- `scheduleMaintenance` delay computation (src/index.ts): a random delay
below five minutes after a latent (over 5000 ms) or failed sweep, a fixed
hour otherwise.  `r` stands for the `Math.random()` draw in [0, 1). -/
def nextMaintenanceDelay (stats : MaintStats) (r : ℚ) : ℤ :=
  if stats.duration > 5000 || !stats.success then ⌊r * (5 * 60 * 1000)⌋
  else 60 * 60 * 1000

/-- The initial random delay of up to one hour (src/index.ts). -/
def initialMaintenanceDelay (r : ℚ) : ℤ := ⌊r * (60 * 60 * 1000)⌋

/-- One item of a raw Border0 list response: `id`, the type-specific id
fields, and the name.  An empty string stands for an absent (JS falsy)
field. -/
structure RawItem where
  id : String
  socket_id : String
  policy_id : String
  name : String
deriving DecidableEq

/-- Shapes a Border0 list response can take: null, a bare array, or an
object with container keys. -/
inductive B0Resp where
  | nullResp : B0Resp
  | arrResp : List RawItem → B0Resp
  | objResp : List (String × List RawItem) → B0Resp
deriving DecidableEq

/-- JS property read `data[key]`: only objects carry container keys. -/
def respField : B0Resp → String → Option (List RawItem)
  | .objResp fs, k => (fs.find? (fun f => f.1 == k)).map (·.2)
  | _, _ => none

/-- The source's key loop: take the first recognized container key present
on the response (a present empty array is taken too, being truthy). -/
def firstContainer (data : B0Resp) : List String → Option (List RawItem)
  | [] => none
  | k :: ks =>
    match respField data k with
    | some v => some v
    | none => firstContainer data ks

/-- Id normalization of `extractList`:
`item.id = item.id || item.socket_id || item.policy_id` for items lacking
an `id`. -/
def normalizeItem (it : RawItem) : RawItem :=
  if it.id = "" then
    { it with id := if it.socket_id ≠ "" then it.socket_id else it.policy_id }
  else it

/-- `Border0Client.extractList`: try the recognized container keys in
order, fall back to the response itself when it is an array, then normalize
ids. -/
def extractList (data : B0Resp) (keys : List String) : List RawItem :=
  match data with
  | .nullResp => []
  | _ =>
    let l0 := (firstContainer data keys).getD []
    let l1 :=
      if l0.isEmpty then
        match data with
        | .arrResp items => items
        | _ => l0
      else l0
    l1.map normalizeItem

/-- The optional service enable/port fields of a provisioning request
(src/models.ts `ProvisionRequest`). -/
structure ProvisionRequest where
  ssh : Option Bool := none
  vnc : Option Bool := none
  web : Option Bool := none
  tcp : Option Bool := none
  rdp : Option Bool := none
  ssh_port : Option Nat := none
  vnc_port : Option Nat := none
  web_port : Option Nat := none
  tcp_port : Option Nat := none
  rdp_port : Option Nat := none
deriving DecidableEq

/-- The dynamic read `(options as any)?.[type]` for the five service
types. -/
def reqEnable (o : ProvisionRequest) : String → Option Bool
  | "ssh" => o.ssh
  | "vnc" => o.vnc
  | "web" => o.web
  | "tcp" => o.tcp
  | "rdp" => o.rdp
  | _ => none

/-- The dynamic read `(options as any)?.[type + '_port']`. -/
def reqPort (o : ProvisionRequest) : String → Option Nat
  | "ssh" => o.ssh_port
  | "vnc" => o.vnc_port
  | "web" => o.web_port
  | "tcp" => o.tcp_port
  | "rdp" => o.rdp_port
  | _ => none

/-- Label lookup on the workload's label map. -/
def lookupLabel (labels : List (String × String)) (k : String) : Option String :=
  (labels.find? (fun l => l.1 == k)).map (·.2)

/-- JS `parseInt` on the decimal label strings the source feeds it: parse
the leading digit run; no leading digit gives NaN (`none`). -/
def parseIntJS (s : String) : Option Nat :=
  let ds := s.data.takeWhile Char.isDigit
  if ds.isEmpty then none
  else some (ds.foldl (fun n c => n * 10 + (c.toNat - '0'.toNat)) 0)

/-- The `{enable, port}` record produced by `getSocketConfig`; `none` as a
port models JS NaN. -/
structure SocketCfg where
  enable : Bool
  port : Option Nat
deriving DecidableEq

/-- `getSocketConfig` (src/index.ts): explicit request field, else label,
with JS truthiness on the port (`optionPort || parseInt(labelPort ||
String(defaultPort))`; note `parseInt(String(n)) = n` and that an empty
label string is falsy). -/
def getSocketConfig (opts : Option ProvisionRequest) (labels : List (String × String))
    (ty : String) (defaultPort : Nat) : SocketCfg :=
  let optionEnabled := opts.bind (fun o => reqEnable o ty)
  let labelEnabled := lookupLabel labels ("border0.io/" ++ ty)
  let enable :=
    match optionEnabled with
    | some b => b
    | none =>
      match labelEnabled with
      | some s => s == "true"
      | none => ty == "ssh"
  let optionPort := opts.bind (fun o => reqPort o ty)
  let labelPort := lookupLabel labels ("border0.io/" ++ ty ++ "_port")
  let fallback :=
    match labelPort with
    | some s => if s = "" then some defaultPort else parseIntJS s
    | none => some defaultPort
  let port :=
    match optionPort with
    | some n => if n != 0 then some n else fallback
    | none => fallback
  { enable := enable, port := port }

/-- The five `configs` entries of `performProvision` with their default
ports. -/
def typeDefaults : List (String × Nat) :=
  [("ssh", 22), ("vnc", 5901), ("web", 80), ("tcp", 0), ("rdp", 3389)]

/-- The provisioning loop's guard: enabled, and not the zero-port skip for
non-ssh types. -/
def willProvision (ty : String) (cfg : SocketCfg) : Bool :=
  cfg.enable && !(cfg.port == some (0 : Nat) && ty != "ssh")

/-- The (type, port) pairs `performProvision` actually reconciles: the
enabled entries surviving the zero-port skip, in loop order. -/
def provisionPlan (opts : Option ProvisionRequest) (labels : List (String × String)) :
    List (String × Option Nat) :=
  typeDefaults.filterMap (fun td =>
    let cfg := getSocketConfig opts labels td.1 td.2
    if willProvision td.1 cfg then some (td.1, cfg.port) else none)

/-- The port-resolution rule exactly as claim C9 words it, for comparison
with the source's `getSocketConfig`: the request's port field when defined,
else the parsed label, else the per-type default. -/
def claimStatedPort (opts : Option ProvisionRequest) (labels : List (String × String))
    (ty : String) (defaultPort : Nat) : Option Nat :=
  match opts.bind (fun o => reqPort o ty) with
  | some n => some n
  | none =>
    match lookupLabel labels ("border0.io/" ++ ty ++ "_port") with
    | some s => parseIntJS s
    | none => some defaultPort

/-- Number of sockets of a given name, the quantity claim C1 bounds. -/
def countSocketsNamed (n : String) (st : RemoteState) : Nat :=
  (st.sockets.filter (fun s => s.name == n)).length

/-- Number of policies of a given name, the quantity claim C2 bounds. -/
def countPoliciesNamed (n : String) (st : RemoteState) : Nat :=
  (st.policies.filter (fun p => p.name == n)).length

/-- A sequence of `attachPolicies` calls (socket id, principal email,
predefined ids), folded over the remote state. -/
def runAttachCalls (calls : List (String × Option String × List String))
    (st : RemoteState) : RemoteState :=
  calls.foldl
    (fun s c =>
      match attachPolicies c.1 c.2.1 c.2.2 s with
      | .ok (s', _) => s'
      | .error _ => s)
    st

/-- The empty remote state. -/
def stEmpty : RemoteState :=
  { sockets := [], policies := [], attachments := [], nextId := 0, denyPolicyCreate := false }

/-- Concrete socket for the teardown example: `shell-c1234567`. -/
def sockShell : Socket :=
  { id := "s1", name := "shell-c1234567", socket_type := "ssh", connector_ids := ["conn"]
    upstream_host := "10.0.0.1", upstream_port := 22
    ssh_authentication_type := "border0_certificate", ssh_username := "coder"
    dnsname := "shell-c1234567.border0.io" }

/-- Concrete socket for the teardown example: `desktop-c1234567`. -/
def sockDesktop : Socket :=
  { id := "s2", name := "desktop-c1234567", socket_type := "vnc", connector_ids := ["conn"]
    upstream_host := "10.0.0.1", upstream_port := 5901
    ssh_authentication_type := "", ssh_username := ""
    dnsname := "desktop-c1234567.border0.io" }

/-- Concrete personal policy `user-policy-dev-example-com`. -/
def polDev : Policy :=
  { id := "p1", name := "user-policy-dev-example-com", emails := ["dev@example.com"] }

/-- The remote state of the spec's teardown example: two endpoints of
workload `c1234567`, each attached only to the personal policy. -/
def stTeardown : RemoteState :=
  { sockets := [sockShell, sockDesktop], policies := [polDev]
    attachments := [("p1", "s1"), ("p1", "s2")], nextId := 10, denyPolicyCreate := false }

/-- Sweep input where the personal policy has one attachment. -/
def stSweepKept : RemoteState :=
  { sockets := [sockShell], policies := [polDev]
    attachments := [("p1", "s1")], nextId := 10, denyPolicyCreate := false }

/-- Sweep input where the personal policy is orphaned. -/
def stSweepOrphan : RemoteState :=
  { sockets := [sockShell], policies := [polDev]
    attachments := [], nextId := 10, denyPolicyCreate := false }

/-- Remote state that denies policy creation, used to exercise the
graceful-degradation path. -/
def stDeny : RemoteState :=
  { sockets := [], policies := [], attachments := [], nextId := 0, denyPolicyCreate := true }

/-- Provisioning request enabling tcp with an explicit port of 0. -/
def reqTcpZero : ProvisionRequest := { tcp := some true, tcp_port := some 0 }

/-- Workload labels carrying a tcp port label. -/
def labelsTcp : List (String × String) := [("border0.io/tcp_port", "8080")]


/-- C10: a call to `deleteSocket`, `updateSocket`, or `deletePolicy` with an
empty (missing) id throws before issuing any HTTP request, leaving the
remote state untouched. -/
theorem empty_id_guards (st : RemoteState) (p : UpdatePayload) :
    deleteSocket "" st = .error "socket_id is required" ∧
    updateSocket "" p st = .error "socket_id is required" ∧
    deletePolicy "" st = .error "policy_id is required" :=
  ⟨rfl, rfl, rfl⟩

/-- C5: a sweep slower than 5000 ms or a failed sweep reschedules within
[0, 300000] ms; a fast successful sweep reschedules in exactly 3600000 ms;
the initial delay lies in [0, 3600000] ms. -/
theorem maintenance_backoff_rule (stats : MaintStats) (r : ℚ)
    (h0 : 0 ≤ r) (h1 : r < 1) :
    ((stats.duration > 5000 ∨ stats.success = false) →
      0 ≤ nextMaintenanceDelay stats r ∧ nextMaintenanceDelay stats r ≤ 300000) ∧
    (stats.duration ≤ 5000 ∧ stats.success = true →
      nextMaintenanceDelay stats r = 3600000) ∧
    (0 ≤ initialMaintenanceDelay r ∧ initialMaintenanceDelay r ≤ 3600000) := by
  have low : ∀ c : ℚ, 0 ≤ c → 0 ≤ ⌊r * c⌋ := by
    intro c hc
    exact Int.le_floor.mpr (by simpa using mul_nonneg h0 hc)
  have high : ∀ c : ℚ, 0 < c → ∀ z : ℤ, c ≤ (z : ℚ) → ⌊r * c⌋ ≤ z := by
    intro c hc z hz
    have : r * c < c := by nlinarith
    exact le_of_lt (Int.floor_lt.mpr (lt_of_lt_of_le this hz))
  refine ⟨?_, ?_, ?_⟩
  · intro hcond
    have hb : (decide (stats.duration > 5000) || !stats.success) = true := by
      rcases hcond with h | h
      · simp [h]
      · simp [h]
    unfold nextMaintenanceDelay
    rw [if_pos hb]
    exact ⟨low _ (by norm_num), high _ (by norm_num) 300000 (by norm_num)⟩
  · rintro ⟨hd, hs⟩
    have hb : (decide (stats.duration > 5000) || !stats.success) = false := by
      simp [hs, Nat.not_lt.mpr hd]
    unfold nextMaintenanceDelay
    rw [if_neg (by simp [hb])]
    norm_num
  · exact ⟨low _ (by norm_num), high _ (by norm_num) 3600000 (by norm_num)⟩

/-- Witness for C5 at the spec's own test inputs: duration 6000 ms gives a
delay within [0, 300000]; duration 50 ms with success gives exactly
3600000. -/
theorem maintenance_backoff_rule_witness :
    (0 : ℚ) ≤ 1/2 ∧ (1/2 : ℚ) < 1 ∧
    (0 ≤ nextMaintenanceDelay ⟨true, 6000⟩ (1/2) ∧
      nextMaintenanceDelay ⟨true, 6000⟩ (1/2) ≤ 300000) ∧
    nextMaintenanceDelay ⟨true, 50⟩ (1/2) = 3600000 :=
  ⟨by norm_num, by norm_num,
    (maintenance_backoff_rule ⟨true, 6000⟩ (1/2) (by norm_num) (by norm_num)).1
      (Or.inl (by norm_num)),
    (maintenance_backoff_rule ⟨true, 50⟩ (1/2) (by norm_num) (by norm_num)).2.1
      ⟨by norm_num, rfl⟩⟩

/-- C7: `extractList` returns the same normalized collection for a bare
array, `{list:[...]}`, and `{sockets:[...]}` carrying the same underlying
data, and every item lacking an `id` receives its type-specific identifier.
-/
theorem extractList_shape_agnostic (l : List RawItem) :
    extractList (.arrResp l) ["list", "sockets"] = l.map normalizeItem ∧
    extractList (.objResp [("list", l)]) ["list", "sockets"] = l.map normalizeItem ∧
    extractList (.objResp [("sockets", l)]) ["list", "sockets"] = l.map normalizeItem ∧
    ∀ it : RawItem, (normalizeItem it).id =
      if it.id ≠ "" then it.id
      else if it.socket_id ≠ "" then it.socket_id
      else it.policy_id := by
  refine ⟨?_, ?_, ?_, ?_⟩
  · simp [extractList, firstContainer, respField]
  · simp [extractList, firstContainer, respField]
  · simp [extractList, firstContainer, respField]
  · intro it
    by_cases h : it.id = "" <;> simp [normalizeItem, h]

/-- C4: when the personal-policy creation is denied, `attachPolicies` does
not raise, creates nothing, and still issues the single bulk-attach call
carrying exactly the predefined ids. -/
theorem attach_degrades_on_create_failure (sid email : String) (pre : List String)
    (st : RemoteState) (hd : st.denyPolicyCreate = true) (he : email ≠ "")
    (hf : findPolicyByName (personalPolicyName email) st = none) (hp : pre ≠ []) :
    attachPolicies sid (some email) pre st = .ok (bulkAttach pre sid st, some pre) ∧
    (bulkAttach pre sid st).policies = st.policies := by
  have hstep : attachStep (some email) pre st = (st, pre) := by
    simp [attachStep, he, hf, createPolicyRemote, hd]
  refine ⟨?_, rfl⟩
  simp [attachPolicies, hstep, hp]

/-- Witness for C4: one concrete denied creation with a single predefined
policy id. -/
theorem attach_degrades_on_create_failure_witness :
    stDeny.denyPolicyCreate = true ∧ "dev@example.com" ≠ "" ∧
    findPolicyByName (personalPolicyName "dev@example.com") stDeny = none ∧
    (["g1"] : List String) ≠ [] ∧
    (attachPolicies "s9" (some "dev@example.com") ["g1"] stDeny =
        .ok (bulkAttach ["g1"] "s9" stDeny, some ["g1"]) ∧
      (bulkAttach ["g1"] "s9" stDeny).policies = stDeny.policies) :=
  ⟨rfl, by decide, by decide, by decide,
    attach_degrades_on_create_failure "s9" "dev@example.com" ["g1"] stDeny
      rfl (by decide) (by decide) (by decide)⟩

/-- Counterexample to C8: two runs that delete 0 and 1 policies return the
very same record, so no field of the sweep's result (which is
`{success, duration}`) equals the number of deleted policies. -/
theorem sweep_result_lacks_deleted_count :
    (performPolicyMaintenance false stSweepKept).2 =
      (performPolicyMaintenance false stSweepOrphan).2 ∧
    (performPolicyMaintenance false stSweepKept).1.policies.length =
      stSweepKept.policies.length ∧
    (performPolicyMaintenance false stSweepOrphan).1.policies.length + 1 =
      stSweepOrphan.policies.length := by
  decide

/-- Helper for C8: the sweep loop reports success whenever the listed
policy ids are non-empty, since only the missing-id guard can raise in the
loop. -/
theorem sweepGo_success (items : List PolicyItem) :
    ∀ st : RemoteState, (∀ it ∈ items, it.id ≠ "") → (sweepGo items st).2 = true := by
  induction items with
  | nil => intro st _; rfl
  | cons it rest ih =>
    intro st hne
    have hid : it.id ≠ "" := hne it (List.mem_cons_self _ _)
    have hrest : ∀ x ∈ rest, x.id ≠ "" := fun x hx => hne x (List.mem_cons_of_mem _ hx)
    unfold sweepGo
    by_cases hs : strStarts it.name "user-policy-"
    · rw [if_pos hs]
      by_cases hc : (match it.socket_ids with
          | some l => l.length
          | none => getSocketCountByPolicy it.id st) = 0
      · rw [if_pos hc]
        unfold deletePolicy
        rw [if_neg hid]
        exact ih _ hrest
      · rw [if_neg hc]
        exact ih _ hrest
    · rw [if_neg hs]
      exact ih _ hrest

/-- C8 (amended): the sweep returns a `{success, duration}` record, not a
deleted count; a run over policies with well-formed (non-empty) ids reports
`success = true`, in either listing shape. -/
theorem sweep_reports_success_and_duration (embed : Bool) (st : RemoteState)
    (hne : ∀ p ∈ st.policies, p.id ≠ "") :
    (performPolicyMaintenance embed st).2 = { success := true, duration := 0 } := by
  unfold performPolicyMaintenance
  have : ∀ it ∈ st.policies.map (policyItemOf embed st), it.id ≠ "" := by
    intro it hit
    rcases List.mem_map.mp hit with ⟨p, hp, rfl⟩
    exact hne p hp
  simp [sweepGo_success _ st this]

/-- Witness for C8 (amended) at a concrete orphan-sweep state. -/
theorem sweep_reports_success_and_duration_witness :
    (∀ p ∈ stSweepOrphan.policies, p.id ≠ "") ∧
    (performPolicyMaintenance true stSweepOrphan).2 = { success := true, duration := 0 } :=
  ⟨by decide, sweep_reports_success_and_duration true stSweepOrphan (by decide)⟩

/-- Counterexample to C9: with `tcp_port: 0` explicit in the request and a
`border0.io/tcp_port: "8080"` label, the claim's resolution takes the
request field (port 0, hence skip), but the code treats 0 as falsy, resolves
port 8080 from the label, and does reconcile the tcp socket. -/
theorem socket_config_zero_port_not_taken :
    claimStatedPort (some reqTcpZero) labelsTcp "tcp" 0 = some 0 ∧
    (getSocketConfig (some reqTcpZero) labelsTcp "tcp" 0).port = some 8080 ∧
    (getSocketConfig (some reqTcpZero) labelsTcp "tcp" 0).enable = true ∧
    ("tcp", some 8080) ∈ provisionPlan (some reqTcpZero) labelsTcp := by
  decide

/-- Helper for C9: membership in the provisioning plan over any defaults
list, characterized without unfolding `getSocketConfig`. -/
theorem provision_mem_aux (opts : Option ProvisionRequest)
    (labels : List (String × String)) (ty : String) (p : Option Nat) :
    ∀ tds : List (String × Nat),
      ((ty, p) ∈ tds.filterMap (fun td =>
          let cfg := getSocketConfig opts labels td.1 td.2
          if willProvision td.1 cfg then some (td.1, cfg.port) else none) ↔
        ∃ td ∈ tds, td.1 = ty ∧
          willProvision ty (getSocketConfig opts labels ty td.2) = true ∧
          p = (getSocketConfig opts labels ty td.2).port) := by
  intro tds
  induction tds with
  | nil => simp
  | cons td rest ih =>
    simp only [List.filterMap_cons]
    by_cases w : willProvision td.1 (getSocketConfig opts labels td.1 td.2) = true
    · simp only [w, if_true]
      constructor
      · intro hm
        rcases List.mem_cons.mp hm with he | hr
        · injection he with h1 h2
          refine ⟨td, List.mem_cons_self _ _, h1.symm, ?_, ?_⟩
          · rw [← h1] at w
            exact w
          · rw [← h1] at h2
            exact h2
        · rcases ih.mp hr with ⟨td', htd', rest'⟩
          exact ⟨td', List.mem_cons_of_mem _ htd', rest'⟩
      · rintro ⟨td', htd', h1, hw, hp⟩
        rcases List.mem_cons.mp htd' with rfl | hr
        · exact List.mem_cons.mpr (Or.inl (by rw [h1, hp]))
        · exact List.mem_cons_of_mem _ (ih.mpr ⟨td', hr, h1, hw, hp⟩)
    · simp only [w, Bool.false_eq_true, if_false]
      rw [ih]
      constructor
      · rintro ⟨td', htd', h1, hw, hp⟩
        exact ⟨td', List.mem_cons_of_mem _ htd', h1, hw, hp⟩
      · rintro ⟨td', htd', h1, hw, hp⟩
        rcases List.mem_cons.mp htd' with rfl | hr
        · exact absurd hw (by rw [h1] at w; exact w)
        · exact ⟨td', hr, h1, hw, hp⟩

/-- Helper for C9: the five service types occur once each in
`typeDefaults`. -/
theorem typeDefaults_unique {ty : String} {d d' : Nat}
    (h : (ty, d) ∈ typeDefaults) (h' : (ty, d') ∈ typeDefaults) : d = d' := by
  simp [typeDefaults, Prod.ext_iff] at h h'
  rcases h with ⟨rfl, rfl⟩ | ⟨rfl, rfl⟩ | ⟨rfl, rfl⟩ | ⟨rfl, rfl⟩ | ⟨rfl, rfl⟩ <;> simp_all

/-- C9 (amended): a type is reconciled iff its request flag is true, or the
flag is absent and the `border0.io/{t}` label is `'true'`, or both are
absent and the type is ssh; the port is the request's field when defined
and non-zero (a 0 port is falsy and falls back), else the parsed label (an
empty label falls back to the default), else the per-type default; and an
entry enters the provisioning plan iff it is enabled and not the zero-port
non-ssh skip. -/
theorem socket_config_resolution (opts : Option ProvisionRequest)
    (labels : List (String × String)) (ty : String) (d : Nat)
    (h : (ty, d) ∈ typeDefaults) :
    ((getSocketConfig opts labels ty d).enable = true ↔
      opts.bind (fun o => reqEnable o ty) = some true ∨
      (opts.bind (fun o => reqEnable o ty) = none ∧
        lookupLabel labels ("border0.io/" ++ ty) = some "true") ∨
      (opts.bind (fun o => reqEnable o ty) = none ∧
        lookupLabel labels ("border0.io/" ++ ty) = none ∧ ty = "ssh")) ∧
    (∀ n : Nat, opts.bind (fun o => reqPort o ty) = some n → n ≠ 0 →
      (getSocketConfig opts labels ty d).port = some n) ∧
    ((opts.bind (fun o => reqPort o ty) = none ∨
        opts.bind (fun o => reqPort o ty) = some 0) →
      (∀ s : String, lookupLabel labels ("border0.io/" ++ ty ++ "_port") = some s →
          s ≠ "" → (getSocketConfig opts labels ty d).port = parseIntJS s) ∧
      (lookupLabel labels ("border0.io/" ++ ty ++ "_port") = none ∨
          lookupLabel labels ("border0.io/" ++ ty ++ "_port") = some "" →
        (getSocketConfig opts labels ty d).port = some d)) ∧
    ((ty, (getSocketConfig opts labels ty d).port) ∈ provisionPlan opts labels ↔
      (getSocketConfig opts labels ty d).enable = true ∧
      ¬((getSocketConfig opts labels ty d).port = some 0 ∧ ty ≠ "ssh")) := by
  refine ⟨?_, ?_, ?_, ?_⟩
  · unfold getSocketConfig
    rcases he : opts.bind (fun o => reqEnable o ty) with _ | b
    · rcases hl : lookupLabel labels ("border0.io/" ++ ty) with _ | s
      · simp [beq_iff_eq]
      · simp [beq_iff_eq]
    · cases b <;> simp
  · intro n hn hnz
    unfold getSocketConfig
    rw [hn]
    simp [hnz]
  · intro hfall
    constructor
    · intro s hs hse
      unfold getSocketConfig
      rw [hs]
      rcases hfall with hf | hf <;> rw [hf] <;> simp [hse]
    · intro hl
      unfold getSocketConfig
      rcases hl with hl | hl <;> rw [hl] <;> rcases hfall with hf | hf <;> rw [hf] <;> simp
  · have hmem : (ty, (getSocketConfig opts labels ty d).port) ∈ provisionPlan opts labels ↔
        willProvision ty (getSocketConfig opts labels ty d) = true := by
      rw [show provisionPlan opts labels = typeDefaults.filterMap (fun td =>
          let cfg := getSocketConfig opts labels td.1 td.2
          if willProvision td.1 cfg then some (td.1, cfg.port) else none) from rfl]
      rw [provision_mem_aux]
      constructor
      · rintro ⟨td, htd, hty1, hw, hp⟩
        have hmem2 : (ty, td.2) ∈ typeDefaults := by
          have : td = (ty, td.2) := Prod.ext hty1 rfl
          rwa [this] at htd
        rw [typeDefaults_unique h hmem2]
        exact hw
      · intro hw
        exact ⟨(ty, d), h, rfl, hw, rfl⟩
    rw [hmem]
    unfold willProvision
    cases hE : (getSocketConfig opts labels ty d).enable <;>
      by_cases hz : (getSocketConfig opts labels ty d).port = some 0 <;>
      by_cases hssh : ty = "ssh" <;>
      simp [hE, hz, hssh, bne_iff_ne, beq_iff_eq]

/-- Witness for C9 (amended) at the concrete zero-port request. -/
theorem socket_config_resolution_witness :
    ("tcp", 0) ∈ typeDefaults ∧
    (("tcp", (getSocketConfig (some reqTcpZero) labelsTcp "tcp" 0).port) ∈
        provisionPlan (some reqTcpZero) labelsTcp ↔
      (getSocketConfig (some reqTcpZero) labelsTcp "tcp" 0).enable = true ∧
      ¬((getSocketConfig (some reqTcpZero) labelsTcp "tcp" 0).port = some 0 ∧
          "tcp" ≠ "ssh")) :=
  ⟨by decide,
    (socket_config_resolution (some reqTcpZero) labelsTcp "tcp" 0 (by decide)).2.2.2⟩

/-- Helper: a name absent from the policies (as `findPolicyByName` reports)
has zero policies carrying it. -/
theorem countPoliciesNamed_of_find_none {n : String} {st : RemoteState}
    (h : findPolicyByName n st = none) : countPoliciesNamed n st = 0 := by
  unfold findPolicyByName at h
  unfold countPoliciesNamed
  rw [List.find?_eq_none] at h
  rw [List.length_eq_zero]
  exact List.filter_eq_nil_iff.mpr h

/-- Helper: `bulkAttach` touches only the attachment relation. -/
theorem bulkAttach_policies (ids : List String) (sid : String) (st : RemoteState) :
    (bulkAttach ids sid st).policies = st.policies := rfl

/-- Helper: one `attachPolicies` call keeps the number of policies of any
fixed name at most one. -/
theorem attach_step_count_le_one (n : String) (c : String × Option String × List String)
    (st : RemoteState) (h : countPoliciesNamed n st ≤ 1) :
    countPoliciesNamed n
      (match attachPolicies c.1 c.2.1 c.2.2 st with
        | .ok out => out.1
        | .error _ => st) ≤ 1 := by
  have hstep : countPoliciesNamed n (attachStep c.2.1 c.2.2 st).1 ≤ 1 := by
    rcases hc : c.2.1 with _ | e
    · simp only [attachStep, hc]
      exact h
    · simp only [attachStep, hc]
      by_cases he : e = ""
      · rw [if_pos he]
        exact h
      · rw [if_neg he]
        rcases hf : findPolicyByName (personalPolicyName e) st with _ | p
        · simp only [hf]
          by_cases hd : st.denyPolicyCreate = true
          · simp only [createPolicyRemote, hd, if_true]
            exact h
          · simp only [Bool.not_eq_true] at hd
            simp only [createPolicyRemote, hd, Bool.false_eq_true, if_false]
            unfold countPoliciesNamed at h ⊢
            simp only [List.filter_append, List.length_append]
            by_cases hn : personalPolicyName e = n
            · have h0 : countPoliciesNamed (personalPolicyName e) st = 0 :=
                countPoliciesNamed_of_find_none hf
              unfold countPoliciesNamed at h0
              rw [hn] at h0
              simp [h0, hn]
            · have hb : (personalPolicyName e == n) = false := by
                simp [hn]
              simp [hb]
              exact h
        · simp only [hf]
          exact h
  unfold attachPolicies
  by_cases hi : (attachStep c.2.1 c.2.2 st).2.isEmpty = true
  · simp only [hi, if_true]
    exact hstep
  · simp only [hi, Bool.false_eq_true, if_false]
    simpa [countPoliciesNamed, bulkAttach] using hstep

/-- Helper: the at-most-one invariant survives any call sequence. -/
theorem runAttachCalls_count_le_one (n : String)
    (calls : List (String × Option String × List String)) :
    ∀ st : RemoteState, countPoliciesNamed n st ≤ 1 →
      countPoliciesNamed n (runAttachCalls calls st) ≤ 1 := by
  induction calls with
  | nil => intro st h; exact h
  | cons c cs ih =>
    intro st h
    have hstep := attach_step_count_le_one n c st h
    unfold runAttachCalls at ih ⊢
    rw [List.foldl_cons]
    rcases ha : attachPolicies c.1 c.2.1 c.2.2 st with e | out
    · rw [ha] at hstep
      exact ih st (by exact hstep)
    · rw [ha] at hstep
      exact ih out.1 hstep

/-- C2: across any sequence of attach calls, at most one personal policy
exists for a principal's deterministic name, and an attach that finds the
personal policy reuses its id in the bulk attach instead of creating a new
policy. -/
theorem attach_personal_policy_dedup (email : String) (he : email ≠ "") :
    (∀ (calls : List (String × Option String × List String)) (st : RemoteState),
      countPoliciesNamed (personalPolicyName email) st ≤ 1 →
      countPoliciesNamed (personalPolicyName email) (runAttachCalls calls st) ≤ 1) ∧
    (∀ (sid : String) (pre : List String) (st : RemoteState) (p : Policy),
      findPolicyByName (personalPolicyName email) st = some p →
      attachPolicies sid (some email) pre st =
        .ok (bulkAttach (pre ++ [p.id]) sid st, some (pre ++ [p.id])) ∧
      (bulkAttach (pre ++ [p.id]) sid st).policies = st.policies) := by
  constructor
  · exact fun calls st h => runAttachCalls_count_le_one (personalPolicyName email) calls st h
  · intro sid pre st p hf
    have hstep : attachStep (some email) pre st = (st, pre ++ [p.id]) := by
      simp only [attachStep, hf]
      rw [if_neg he]
    refine ⟨?_, rfl⟩
    unfold attachPolicies
    rw [hstep]
    simp

/-- Witness for C2: two attach calls for the same email on two endpoints
leave at most one personal policy in the empty-start state. -/
theorem attach_personal_policy_dedup_witness :
    ("dev@example.com" : String) ≠ "" ∧
    countPoliciesNamed (personalPolicyName "dev@example.com")
      (runAttachCalls
        [("sA", some "dev@example.com", []), ("sB", some "dev@example.com", [])]
        stEmpty) ≤ 1 :=
  ⟨by decide,
    (attach_personal_policy_dedup "dev@example.com" (by decide)).1
      [("sA", some "dev@example.com", []), ("sB", some "dev@example.com", [])]
      stEmpty (by decide)⟩

/-- Helper: the list-prefix test is reflexive. -/
theorem isPrefixOf_self_true (l : List Char) : l.isPrefixOf l = true := by
  induction l with
  | nil => rfl
  | cons c t ih => simp [List.isPrefixOf, ih]

/-- Helper: every string occurs in itself as a substring. -/
theorem strHasSub_self (s : String) : strHasSub s s = true := by
  unfold strHasSub
  cases h : s.data with
  | nil => simp [subListOf, h]
  | cons c t => simp [subListOf, isPrefixOf_self_true]

/-- Helper: a name carried by no socket is not found. -/
theorem findSocketByName_eq_none_of {n : String} {st : RemoteState}
    (h : ∀ s ∈ st.sockets, s.name ≠ n) : findSocketByName n st = none := by
  unfold findSocketByName
  rw [Option.map_eq_none']
  rw [List.find?_eq_none]
  intro it hit
  unfold listSocketsByName at hit
  rcases List.mem_map.mp hit with ⟨s, hs, rfl⟩
  have hne := h s (List.mem_filter.mp hs).1
  simp [hne]

/-- Helper: a name carried by some socket is found, and the found socket
carries that name. -/
theorem findSocketByName_some_of {n : String} {st : RemoteState}
    (hex : ∃ s ∈ st.sockets, s.name = n) :
    ∃ t, findSocketByName n st = some t ∧ t ∈ st.sockets ∧ t.name = n := by
  rcases hex with ⟨s, hs, hn⟩
  have hmem : (s, attachedPolicies st s.id) ∈ listSocketsByName n st := by
    unfold listSocketsByName
    refine List.mem_map.mpr ⟨s, List.mem_filter.mpr ⟨hs, ?_⟩, rfl⟩
    rw [hn]
    exact strHasSub_self n
  have hsome : ((listSocketsByName n st).find? (fun it => it.1.name == n)).isSome := by
    rw [List.find?_isSome]
    exact ⟨_, hmem, by simp [hn]⟩
  rcases Option.isSome_iff_exists.mp hsome with ⟨it, hit⟩
  have hfound := List.find?_some hit
  have hmem2 := List.mem_of_find?_eq_some hit
  refine ⟨it.1, ?_, ?_, eq_of_beq hfound⟩
  · unfold findSocketByName
    rw [hit]
    rfl
  · unfold listSocketsByName at hmem2
    rcases List.mem_map.mp hmem2 with ⟨u, hu, hequ⟩
    rw [← hequ]
    exact (List.mem_filter.mp hu).1

/-- Helper: `attachPolicies` always succeeds against the modelled service
and never touches the socket collection. -/
theorem attachPolicies_ok (sid : String) (email : Option String) (pre : List String)
    (st : RemoteState) :
    ∃ out : RemoteState × Option (List String),
      attachPolicies sid email pre st = .ok out ∧ out.1.sockets = st.sockets := by
  have hsock : (attachStep email pre st).1.sockets = st.sockets := by
    rcases email with _ | e
    · rfl
    · simp only [attachStep]
      by_cases he : e = ""
      · rw [if_pos he]
      · rw [if_neg he]
        rcases hf : findPolicyByName (personalPolicyName e) st with _ | p
        · simp only [hf]
          by_cases hd : st.denyPolicyCreate = true
          · simp only [createPolicyRemote, hd, if_true]
          · simp only [Bool.not_eq_true] at hd
            simp only [createPolicyRemote, hd, Bool.false_eq_true, if_false]
        · simp only [hf]
  unfold attachPolicies
  by_cases hi : (attachStep email pre st).2.isEmpty = true
  · rw [if_pos hi]
    exact ⟨_, rfl, hsock⟩
  · rw [if_neg hi]
    exact ⟨_, rfl, hsock⟩

/-- Helper: mapping a name-preserving function over the sockets keeps the
per-name counts. -/
theorem filter_names_map_preserve {n : String} (f : Socket → Socket)
    (hf : ∀ s, (f s).name = s.name) (l : List Socket) :
    (List.filter (fun s => s.name == n) (l.map f)).length =
      (List.filter (fun s => s.name == n) l).length := by
  induction l with
  | nil => rfl
  | cons a t ih =>
    simp only [List.map_cons, List.filter_cons, hf a]
    by_cases hb : (a.name == n) = true
    · simp [hb, ih]
    · simp [hb, ih]

/-- Helper: an update addressed at a member id succeeds and returns the
mapped socket collection. -/
theorem updateSocket_ok {sid : String} (hne : sid ≠ "") (p : UpdatePayload)
    (st : RemoteState) (hmem : ∃ s ∈ st.sockets, s.id = sid) :
    ∃ u, updateSocket sid p st =
      .ok ({ st with sockets :=
          st.sockets.map (fun s => if s.id == sid then applyUpdate p s else s) }, u) := by
  rcases hmem with ⟨s, hs, hid⟩
  have hfind : ∃ u, (st.sockets.map
      (fun s => if s.id == sid then applyUpdate p s else s)).find?
        (fun s => s.id == sid) = some u := by
    apply Option.isSome_iff_exists.mp
    rw [List.find?_isSome]
    refine ⟨(if s.id == sid then applyUpdate p s else s),
      List.mem_map.mpr ⟨s, hs, rfl⟩, ?_⟩
    have hb : (s.id == sid) = true := beq_iff_eq.mpr hid
    rw [if_pos hb]
    show ((applyUpdate p s).id == sid) = true
    have : (applyUpdate p s).id = s.id := rfl
    rw [this]
    exact hb
  rcases hfind with ⟨u, hu⟩
  refine ⟨u, ?_⟩
  unfold updateSocket
  rw [if_neg hne]
  simp only [hu]

/-- Helper: bind on a successful `Except` computation applies the
continuation. -/
theorem exceptBind_ok {ε α β : Type} (a : α) (f : α → Except ε β) :
    (Except.ok a : Except ε α) >>= f = f a := rfl

/-- Helper: a freshly assigned socket id is never the empty string. -/
theorem sockPrefId_ne (k : Nat) : ("sock-" ++ toString k) ≠ "" := by
  intro hcontra
  have hlen := congrArg String.length hcontra
  rw [String.length_append] at hlen
  have h5 : ("sock-" : String).length = 5 := by decide
  have h0 : ("" : String).length = 0 := by decide
  rw [h5, h0] at hlen
  omega

/-- C1: reconciling twice with identical inputs yields exactly one endpoint
carrying the deterministic `{serviceType}-{first 8 chars of workloadId}`
name; the first call creates, the second finds by exact name and updates. -/
theorem reconcile_twice_single_endpoint (connectorId sshUser : String)
    (email : Option String) (policies : List String) (ty wid ip : String) (port : Nat)
    (st : RemoteState)
    (h : ∀ s ∈ st.sockets, s.name ≠ detSocketName ty wid) :
    ∃ (st1 : RemoteState) (s1 : Socket) (st2 : RemoteState) (s2 : Socket),
      setupSocket connectorId sshUser email policies (detSocketName ty wid) ty port ip st
        = .ok (st1, s1, .created) ∧
      setupSocket connectorId sshUser email policies (detSocketName ty wid) ty port ip st1
        = .ok (st2, s2, .updated) ∧
      s1.name = detSocketName ty wid ∧
      countSocketsNamed (detSocketName ty wid) st1 = 1 ∧
      countSocketsNamed (detSocketName ty wid) st2 = 1 := by
  set n := detSocketName ty wid with hn
  set b0 := (if ty == "web" then "http" else ty) with hb0
  set cS := createSocket n b0 connectorId ip port sshUser st with hcS
  have hf1 : findSocketByName n st = none := findSocketByName_eq_none_of h
  obtain ⟨out1, hat1, hsock1⟩ := attachPolicies_ok cS.2.id email policies cS.1
  have hcall1 : setupSocket connectorId sshUser email policies n ty port ip st
      = .ok (out1.1, cS.2, .created) := by
    simp only [setupSocket]
    rw [hf1, hat1]
    rfl
  have hs1name : cS.2.name = n := rfl
  have hsts : cS.1.sockets = st.sockets ++ [cS.2] := rfl
  have hcount1 : countSocketsNamed n out1.1 = 1 := by
    unfold countSocketsNamed
    rw [hsock1, hsts, List.filter_append]
    have hnil : st.sockets.filter (fun s => s.name == n) = [] := by
      refine List.filter_eq_nil_iff.mpr ?_
      intro s hs
      simp [h s hs]
    rw [hnil]
    simp [hs1name]
  -- second call
  have hmem1 : cS.2 ∈ out1.1.sockets := by
    rw [hsock1, hsts]
    exact List.mem_append_right _ (List.mem_singleton_self _)
  obtain ⟨t, hft, htmem, htname⟩ :=
    @findSocketByName_some_of n out1.1 ⟨cS.2, hmem1, hs1name⟩
  have ht : t = cS.2 := by
    rw [hsock1, hsts] at htmem
    rcases List.mem_append.mp htmem with hL | hR
    · exact absurd htname (h t hL)
    · exact List.mem_singleton.mp hR
  have hid : t.id ≠ "" := by
    rw [ht]
    exact sockPrefId_ne st.nextId
  set pay : UpdatePayload :=
    { upstream_host := some ip
      upstream_port := some port
      ssh_authentication_type := if b0 == "ssh" then some "border0_certificate" else none
      ssh_username := if b0 == "ssh" then some sshUser else none } with hpay
  obtain ⟨u, hupd⟩ := updateSocket_ok hid pay out1.1 ⟨t, htmem, rfl⟩
  obtain ⟨out2, hat2, hsock2⟩ := attachPolicies_ok u.id email policies
    { out1.1 with sockets :=
        out1.1.sockets.map (fun s => if s.id == t.id then applyUpdate pay s else s) }
  have hcall2 : setupSocket connectorId sshUser email policies n ty port ip out1.1
      = .ok (out2.1, u, .updated) := by
    simp only [setupSocket, hft]
    rw [hupd]
    simp only [exceptBind_ok]
    rw [hat2]
    rfl
  have hfpres : ∀ s : Socket,
      ((fun s => if s.id == t.id then applyUpdate pay s else s) s).name = s.name := by
    intro s
    by_cases hb : (s.id == t.id) = true
    · show (if s.id == t.id then applyUpdate pay s else s).name = s.name
      rw [if_pos hb]
      rfl
    · show (if s.id == t.id then applyUpdate pay s else s).name = s.name
      rw [if_neg hb]
  have hcount2 : countSocketsNamed n out2.1 = 1 := by
    unfold countSocketsNamed
    rw [hsock2]
    show (List.filter (fun s => s.name == n) (out1.1.sockets.map
      (fun s => if s.id == t.id then applyUpdate pay s else s))).length = 1
    rw [filter_names_map_preserve _ hfpres]
    unfold countSocketsNamed at hcount1
    exact hcount1
  exact ⟨out1.1, cS.2, out2.1, u, hcall1, hcall2, hs1name, hcount1, hcount2⟩

/-- Witness for C1: reconcile an ssh endpoint for workload `c1234567ff`
twice against the empty remote state. -/
theorem reconcile_twice_single_endpoint_witness :
    (∀ s ∈ stEmpty.sockets, s.name ≠ detSocketName "ssh" "c1234567ff") ∧
    (∃ (st1 : RemoteState) (s1 : Socket) (st2 : RemoteState) (s2 : Socket),
      setupSocket "conn" "coder" (some "dev@example.com") ["g1"]
          (detSocketName "ssh" "c1234567ff") "ssh" 22 "10.0.0.1" stEmpty
        = .ok (st1, s1, .created) ∧
      setupSocket "conn" "coder" (some "dev@example.com") ["g1"]
          (detSocketName "ssh" "c1234567ff") "ssh" 22 "10.0.0.1" st1
        = .ok (st2, s2, .updated) ∧
      s1.name = detSocketName "ssh" "c1234567ff" ∧
      countSocketsNamed (detSocketName "ssh" "c1234567ff") st1 = 1 ∧
      countSocketsNamed (detSocketName "ssh" "c1234567ff") st2 = 1) :=
  ⟨by decide,
    reconcile_twice_single_endpoint "conn" "coder" (some "dev@example.com") ["g1"]
      "ssh" "c1234567ff" "10.0.0.1" 22 stEmpty (by decide)⟩

/-- Helper: distinct mapped keys identify list members. -/
theorem nodup_key_eq {α β : Type} [DecidableEq β] {f : α → β} :
    ∀ {l : List α}, (l.map f).Nodup → ∀ {a b : α}, a ∈ l → b ∈ l → f a = f b → a = b := by
  intro l
  induction l with
  | nil =>
    intro _ a b ha
    cases ha
  | cons x t ih =>
    intro hnd a b ha hb hf
    rw [List.map_cons, List.nodup_cons] at hnd
    rcases List.mem_cons.mp ha with rfl | ha'
    · rcases List.mem_cons.mp hb with rfl | hb'
      · rfl
      · exact absurd (hf ▸ List.mem_map_of_mem f hb') hnd.1
    · rcases List.mem_cons.mp hb with rfl | hb'
      · exact absurd (hf ▸ List.mem_map_of_mem f ha') hnd.1
      · exact ih hnd.2 ha' hb' hf

/-- Helper: the per-policy lookup of a listed policy counts its
attachments. -/
theorem getSocketCount_of_mem {st : RemoteState} {p : Policy}
    (hmem : p ∈ st.policies) :
    getSocketCountByPolicy p.id st = (pAtt st p.id).length := by
  unfold getSocketCountByPolicy
  rcases hfind : st.policies.find? (fun q => q.id == p.id) with _ | q
  · rw [List.find?_eq_none] at hfind
    exact absurd (by simp) (hfind p hmem)
  · rw [hfind]

/-- Helper: the orphan criterion only reads the attachment relation and the
name. -/
theorem isOrphanPersonal_congr (st st' : RemoteState)
    (hatt : st'.attachments = st.attachments) (q : Policy) :
    isOrphanPersonal st' q = isOrphanPersonal st q := by
  unfold isOrphanPersonal pAtt
  rw [hatt]

/-- Helper: listing entries only read the attachment relation and the
policy record. -/
theorem policyItemOf_congr (st st' : RemoteState)
    (hatt : st'.attachments = st.attachments) (embed : Bool) (p : Policy) :
    policyItemOf embed st' p = policyItemOf embed st p := by
  unfold policyItemOf pAtt
  rw [hatt]

/-- Helper: full characterization of the sweep loop over a sublist of the
stored policies. -/
theorem sweepGo_spec (embed : Bool) :
    ∀ (ps : List Policy) (st : RemoteState),
      ps.Sublist st.policies →
      (st.policies.map Policy.id).Nodup →
      (∀ p ∈ st.policies, p.id ≠ "") →
      sweepGo (ps.map (policyItemOf embed st)) st =
        ({ st with
            policies := st.policies.filter
              (fun q => !(ps.any (fun p => p.id == q.id) && isOrphanPersonal st q))
            attachments := st.attachments.filter
              (fun a => !(ps.any (fun p => p.id == a.1 && isOrphanPersonal st p))) },
          true) := by
  intro ps
  induction ps with
  | nil =>
    intro st _ _ _
    simp only [List.map_nil, sweepGo, List.any_nil, Bool.false_and, Bool.not_false,
      List.filter_true]
  | cons p rest ih =>
    intro st hsub hnd hne
    have hpmem : p ∈ st.policies := hsub.subset (List.mem_cons_self p rest)
    have hrestsub : rest.Sublist st.policies := List.sublist_of_cons_sublist hsub
    have hpid_ne : p.id ≠ "" := hne p hpmem
    have hids_nd : ((p :: rest).map Policy.id).Nodup :=
      List.Nodup.sublist (List.Sublist.map Policy.id hsub) hnd
    have hp_notin : p.id ∉ rest.map Policy.id := by
      rw [List.map_cons, List.nodup_cons] at hids_nd
      exact hids_nd.1
    have hrest_ne : ∀ q ∈ rest, q.id ≠ p.id := by
      intro q hq hcontra
      exact hp_notin (hcontra ▸ List.mem_map_of_mem Policy.id hq)
    have hcnt : (match (policyItemOf embed st p).socket_ids with
        | some l => l.length
        | none => getSocketCountByPolicy (policyItemOf embed st p).id st) =
        (pAtt st p.id).length := by
      cases embed
      · show getSocketCountByPolicy p.id st = (pAtt st p.id).length
        exact getSocketCount_of_mem hpmem
      · show ((pAtt st p.id).map (·.2)).length = (pAtt st p.id).length
        exact List.length_map _ _
    simp only [List.map_cons, sweepGo]
    by_cases hper : strStarts (policyItemOf embed st p).name "user-policy-" = true
    · rw [if_pos hper]
      rw [hcnt]
      by_cases hz : (pAtt st p.id).length = 0
      · rw [if_pos hz]
        -- orphan deletion branch
        have hattnil : ∀ a ∈ st.attachments, (a.1 == p.id) = false := by
          intro a ha
          by_contra hcontra
          have hmem : a ∈ pAtt st p.id :=
            List.mem_filter.mpr ⟨ha, by simpa using hcontra⟩
          rw [List.length_eq_zero.mp hz] at hmem
          cases hmem
        have hattkeep : st.attachments.filter (fun a => a.1 != p.id) = st.attachments := by
          refine List.filter_eq_self.mpr ?_
          intro a ha
          simpa using fun hcontra => by simpa [hcontra] using hattnil a ha
        have horphanp : isOrphanPersonal st p = true := by
          unfold isOrphanPersonal
          simp only [Bool.and_eq_true, beq_iff_eq]
          exact ⟨hper, hz⟩
        set stDel : RemoteState :=
          { sockets := st.sockets
            policies := st.policies.filter (fun q => q.id != p.id)
            attachments := st.attachments.filter (fun a => a.1 != p.id)
            nextId := st.nextId
            denyPolicyCreate := st.denyPolicyCreate } with hstDel
        have hdelP : deletePolicy (policyItemOf embed st p).id st = .ok stDel := by
          unfold deletePolicy
          rw [show (policyItemOf embed st p).id = p.id from rfl, if_neg hpid_ne]
        rw [hdelP]
        have hattDel : stDel.attachments = st.attachments := hattkeep
        show sweepGo (List.map (policyItemOf embed st) rest) stDel =
          ({ st with
              policies := st.policies.filter
                (fun q => !((p :: rest).any (fun x => x.id == q.id) && isOrphanPersonal st q))
              attachments := st.attachments.filter
                (fun a => !((p :: rest).any (fun x => x.id == a.1 && isOrphanPersonal st x))) },
            true)
        have hmapeq : List.map (policyItemOf embed st) rest =
            List.map (policyItemOf embed stDel) rest :=
          List.map_congr_left (fun q _ => (policyItemOf_congr st stDel hattDel embed q).symm)
        rw [hmapeq]
        have hsub' : rest.Sublist stDel.policies := by
          have heq : List.filter (fun q => q.id != p.id) rest = rest :=
            List.filter_eq_self.mpr (fun q hq => by simpa using hrest_ne q hq)
          have hfs := List.Sublist.filter (fun q => q.id != p.id) hrestsub
          rw [heq] at hfs
          exact hfs
        have hnd' : (stDel.policies.map Policy.id).Nodup :=
          List.Nodup.sublist (List.Sublist.map Policy.id (List.filter_sublist _)) hnd
        have hne' : ∀ q ∈ stDel.policies, q.id ≠ "" :=
          fun q hq => hne q (List.mem_filter.mp hq).1
        rw [ih stDel hsub' hnd' hne']
        refine congrArg (fun x => (x, true)) ?_
        simp only [isOrphanPersonal_congr st stDel hattDel]
        simp only [hattkeep]
        congr 1
        · rw [List.filter_filter]
          refine List.filter_congr ?_
          intro q hq
          by_cases hqp : p.id = q.id
          · have hqeq : q = p := nodup_key_eq hnd hq hpmem hqp.symm
            rw [hqeq]
            simp [List.any_cons, horphanp]
          · have h1 : (p.id == q.id) = false := by simp [hqp]
            have h2 : (q.id != p.id) = true := by
              simp only [bne_iff_ne, ne_eq]
              exact fun hc => hqp hc.symm
            simp [List.any_cons, h1, h2]
        · refine List.filter_congr ?_
          intro a ha
          have h1 : (p.id == a.1) = false := by
            have h0 := hattnil a ha
            rw [beq_eq_false_iff_ne] at h0 ⊢
            exact fun hc => h0 hc.symm
          simp [List.any_cons, h1]
      · rw [if_neg hz]
        rw [ih st hrestsub hnd hne]
        refine congrArg (fun x => (x, true)) ?_
        have horphanp : isOrphanPersonal st p = false := by
          unfold isOrphanPersonal
          simp [hz]
        congr 1
        · refine List.filter_congr ?_
          intro q hq
          by_cases hqp : p.id = q.id
          · have hqeq : q = p := nodup_key_eq hnd hq hpmem hqp.symm
            rw [hqeq]
            simp [List.any_cons, horphanp]
          · have h1 : (p.id == q.id) = false := by simp [hqp]
            simp [List.any_cons, h1]
        · refine List.filter_congr ?_
          intro a _
          simp [List.any_cons, horphanp]
    · rw [if_neg hper]
      rw [ih st hrestsub hnd hne]
      refine congrArg (fun x => (x, true)) ?_
      have hname : strStarts p.name "user-policy-" = false := by
        simpa [policyItemOf] using hper
      have horphanp : isOrphanPersonal st p = false := by
        unfold isOrphanPersonal
        simp [hname]
      congr 1
      · refine List.filter_congr ?_
        intro q hq
        by_cases hqp : p.id = q.id
        · have hqeq : q = p := nodup_key_eq hnd hq hpmem hqp.symm
          rw [hqeq]
          simp [List.any_cons, horphanp]
        · have h1 : (p.id == q.id) = false := by simp [hqp]
          simp [List.any_cons, h1]
      · refine List.filter_congr ?_
        intro a _
        simp [List.any_cons, horphanp]

/-- C3: in either listing shape, the sweep deletes exactly the policies
whose name carries the personal marker and whose resolved attachment count
is zero; attached personal policies and non-personal policies survive
unchanged, and the socket collection is untouched. -/
theorem sweep_deletes_exactly_orphan_personal (embed : Bool) (st : RemoteState)
    (hnd : (st.policies.map Policy.id).Nodup)
    (hne : ∀ p ∈ st.policies, p.id ≠ "") :
    performPolicyMaintenance embed st =
      ({ st with
          policies := st.policies.filter (fun q => !isOrphanPersonal st q)
          attachments := st.attachments.filter
            (fun a => !(st.policies.any (fun p => p.id == a.1 && isOrphanPersonal st p))) },
        { success := true, duration := 0 }) := by
  have hA : st.policies.filter
      (fun q => !(st.policies.any (fun p => p.id == q.id) && isOrphanPersonal st q)) =
      st.policies.filter (fun q => !isOrphanPersonal st q) := by
    refine List.filter_congr ?_
    intro q hq
    have hany : st.policies.any (fun p => p.id == q.id) = true :=
      List.any_eq_true.mpr ⟨q, hq, by simp⟩
    rw [hany, Bool.true_and]
  unfold performPolicyMaintenance
  rw [sweepGo_spec embed st.policies st (List.Sublist.refl _) hnd hne, hA]

/-- Witness for C3 at the one-attachment state: the attached personal
policy survives the sweep. -/
theorem sweep_deletes_exactly_orphan_personal_witness :
    ((stSweepKept.policies.map Policy.id).Nodup) ∧
    (∀ p ∈ stSweepKept.policies, p.id ≠ "") ∧
    performPolicyMaintenance false stSweepKept =
      ({ stSweepKept with
          policies := stSweepKept.policies.filter (fun q => !isOrphanPersonal stSweepKept q)
          attachments := stSweepKept.attachments.filter
            (fun a => !(stSweepKept.policies.any
              (fun p => p.id == a.1 && isOrphanPersonal stSweepKept p))) },
        { success := true, duration := 0 }) :=
  ⟨by decide, by decide,
    sweep_deletes_exactly_orphan_personal false stSweepKept (by decide) (by decide)⟩

/-- Helper: characterization of the eager policy-cleanup loop of
`performDeprovision` over a sublist of the stored policies: it deletes
exactly the listed policies whose attachment count is zero, and leaves the
attachment relation alone (deleted policies have no attachments). -/
theorem policyCleanup_spec :
    ∀ (ps : List Policy) (st : RemoteState),
      ps.Sublist st.policies →
      (st.policies.map Policy.id).Nodup →
      (∀ p ∈ st.policies, p.id ≠ "") →
      policyCleanup ps st =
        { st with
            policies := st.policies.filter
              (fun q => !(ps.any (fun p => p.id == q.id) && (pAtt st q.id).isEmpty)) } := by
  intro ps
  induction ps with
  | nil =>
    intro st _ _ _
    simp only [policyCleanup, List.any_nil, Bool.false_and, Bool.not_false, List.filter_true]
  | cons p rest ih =>
    intro st hsub hnd hne
    have hpmem : p ∈ st.policies := hsub.subset (List.mem_cons_self p rest)
    have hrestsub : rest.Sublist st.policies := List.sublist_of_cons_sublist hsub
    have hpid_ne : p.id ≠ "" := hne p hpmem
    have hids_nd : ((p :: rest).map Policy.id).Nodup :=
      List.Nodup.sublist (List.Sublist.map Policy.id hsub) hnd
    have hrest_ne : ∀ q ∈ rest, q.id ≠ p.id := by
      rw [List.map_cons, List.nodup_cons] at hids_nd
      intro q hq hcontra
      exact hids_nd.1 (hcontra ▸ List.mem_map_of_mem Policy.id hq)
    simp only [policyCleanup]
    rw [getSocketCount_of_mem hpmem]
    by_cases hz : (pAtt st p.id).length = 0
    · rw [if_pos hz]
      have hattnil : ∀ a ∈ st.attachments, (a.1 == p.id) = false := by
        intro a ha
        by_contra hcontra
        have hmem : a ∈ pAtt st p.id :=
          List.mem_filter.mpr ⟨ha, by simpa using hcontra⟩
        rw [List.length_eq_zero.mp hz] at hmem
        cases hmem
      have hattkeep : st.attachments.filter (fun a => a.1 != p.id) = st.attachments := by
        refine List.filter_eq_self.mpr ?_
        intro a ha
        simpa using fun hcontra => by simpa [hcontra] using hattnil a ha
      set stDel : RemoteState :=
        { sockets := st.sockets
          policies := st.policies.filter (fun q => q.id != p.id)
          attachments := st.attachments.filter (fun a => a.1 != p.id)
          nextId := st.nextId
          denyPolicyCreate := st.denyPolicyCreate } with hstDel
      have hdelP : deletePolicy p.id st = .ok stDel := by
        unfold deletePolicy
        rw [if_neg hpid_ne]
      rw [hdelP]
      show policyCleanup rest stDel =
        { st with
            policies := st.policies.filter
              (fun q => !((p :: rest).any (fun x => x.id == q.id) && (pAtt st q.id).isEmpty)) }
      have hpatt : ∀ x : String, pAtt stDel x = pAtt st x := by
        intro x
        show (st.attachments.filter (fun a => a.1 != p.id)).filter (fun a => a.1 == x) =
          pAtt st x
        rw [hattkeep]
        rfl
      have hsub' : rest.Sublist stDel.policies := by
        have heq : List.filter (fun q => q.id != p.id) rest = rest :=
          List.filter_eq_self.mpr (fun q hq => by simpa using hrest_ne q hq)
        have hfs := List.Sublist.filter (fun q => q.id != p.id) hrestsub
        rw [heq] at hfs
        exact hfs
      have hnd' : (stDel.policies.map Policy.id).Nodup :=
        List.Nodup.sublist (List.Sublist.map Policy.id (List.filter_sublist _)) hnd
      have hne' : ∀ q ∈ stDel.policies, q.id ≠ "" :=
        fun q hq => hne q (List.mem_filter.mp hq).1
      rw [ih stDel hsub' hnd' hne']
      simp only [hpatt]
      have hEp : (pAtt st p.id).isEmpty = true := by
        rw [List.length_eq_zero.mp hz]
        rfl
      congr 1
      · show (st.policies.filter (fun q => q.id != p.id)).filter
            (fun q => !(rest.any (fun x => x.id == q.id) && (pAtt st q.id).isEmpty)) =
          st.policies.filter
            (fun q => !((p :: rest).any (fun x => x.id == q.id) && (pAtt st q.id).isEmpty))
        rw [List.filter_filter]
        refine List.filter_congr ?_
        intro q hq
        by_cases hqp : p.id = q.id
        · have hqeq : q = p := nodup_key_eq hnd hq hpmem hqp.symm
          rw [hqeq]
          simp [List.any_cons, hEp]
        · have h1 : (p.id == q.id) = false := by simp [hqp]
          have h2 : (q.id != p.id) = true := by
            simp only [bne_iff_ne, ne_eq]
            exact fun hc => hqp hc.symm
          simp [List.any_cons, h1, h2]
    · rw [if_neg hz]
      rw [ih st hrestsub hnd hne]
      have hEp : (pAtt st p.id).isEmpty = false := by
        cases h2 : (pAtt st p.id).isEmpty
        · rfl
        · exact absurd (by simpa using congrArg List.length (List.isEmpty_iff.mp h2)) hz
      congr 1
      refine List.filter_congr ?_
      intro q hq
      by_cases hqp : p.id = q.id
      · have hqeq : q = p := nodup_key_eq hnd hq hpmem hqp.symm
        rw [hqeq]
        simp [List.any_cons, hEp]
      · have h1 : (p.id == q.id) = false := by simp [hqp]
        simp [List.any_cons, h1]

/-- Helper: one teardown step (delete socket `s`, then eagerly clean up its
snapshot of personal policies) composed with the remaining steps over
`rest` deletes a policy exactly when the whole run over `s :: rest` does.
`inP` abstracts membership of the policy in the step's personal snapshot. -/
theorem teardown_del_pointwise (att : List (String × String)) (s : Socket)
    (rest : List Socket) (q : Policy) (inP : Bool)
    (hinP : inP = true ↔
      (strStarts q.name "user-policy-" = true ∧ (q.id, s.id) ∈ att)) :
    (!(inP && ((att.filter (fun a => a.2 != s.id)).filter
          (fun a => a.1 == q.id)).isEmpty) &&
      !(delPred (att.filter (fun a => a.2 != s.id)) rest q)) =
      !(delPred att (s :: rest) q) := by
  have hA' : (att.filter (fun a => a.2 != s.id)).filter (fun a => a.1 == q.id) =
      (att.filter (fun a => a.1 == q.id)).filter (fun a => a.2 != s.id) := by
    rw [List.filter_filter, List.filter_filter]
    exact List.filter_congr (fun a _ => Bool.and_comm _ _)
  unfold delPred
  simp only [hA']
  set A := att.filter (fun a => a.1 == q.id) with hAdef
  by_cases hP : strStarts q.name "user-policy-" = true
  · simp only [hP, Bool.true_and]
    rw [← Bool.not_or]
    refine congrArg (fun b => !b) ?_
    rw [Bool.eq_iff_iff]
    simp only [Bool.or_eq_true, Bool.and_eq_true, Bool.not_eq_true']
    constructor
    · rintro (⟨hIt, hE't⟩ | ⟨hE'f, hall'⟩)
      · obtain ⟨hP', hCmem⟩ := hinP.mp hIt
        have hCmemA : (q.id, s.id) ∈ A := List.mem_filter.mpr ⟨hCmem, by simp⟩
        constructor
        · cases hEv : A.isEmpty
          · rfl
          · rw [List.isEmpty_iff.mp hEv] at hCmemA
            cases hCmemA
        · rw [List.all_eq_true]
          intro a haA
          have hfail := List.filter_eq_nil_iff.mp (List.isEmpty_iff.mp hE't)
          have has : a.2 = s.id := by simpa using hfail a haA
          simp [List.any_cons, has]
      · constructor
        · cases hEv : A.isEmpty
          · rfl
          · rw [List.isEmpty_iff.mp hEv] at hE'f
            simp at hE'f
        · rw [List.all_eq_true]
          intro a haA
          by_cases has : a.2 = s.id
          · simp [List.any_cons, has]
          · have haA' : a ∈ A.filter (fun a => a.2 != s.id) :=
              List.mem_filter.mpr ⟨haA, by simpa using has⟩
            have hr := (List.all_eq_true.mp hall') a haA'
            simp only [List.any_cons, Bool.or_eq_true]
            exact Or.inr hr
    · rintro ⟨hEf, hall⟩
      by_cases hE'v : (A.filter (fun a => a.2 != s.id)).isEmpty = true
      · left
        refine ⟨?_, hE'v⟩
        have hAne : A ≠ [] := by
          intro hc
          rw [hc] at hEf
          simp at hEf
        obtain ⟨a0, ha0⟩ := List.exists_mem_of_ne_nil A hAne
        have hfail := List.filter_eq_nil_iff.mp (List.isEmpty_iff.mp hE'v)
        have ha0s : a0.2 = s.id := by simpa using hfail a0 ha0
        have ha0q : a0.1 = q.id := by
          have := (List.mem_filter.mp ha0).2
          simpa using this
        have ha0att : a0 ∈ att := (List.mem_filter.mp ha0).1
        have heta : a0 = (q.id, s.id) := Prod.ext ha0q ha0s
        exact hinP.mpr ⟨hP, heta ▸ ha0att⟩
      · right
        refine ⟨Bool.eq_false_iff.mpr hE'v, ?_⟩
        rw [List.all_eq_true]
        intro a haA'
        obtain ⟨haA, hpred⟩ := List.mem_filter.mp haA'
        have has : a.2 ≠ s.id := by simpa using hpred
        have hx := (List.all_eq_true.mp hall) a haA
        simp only [List.any_cons, Bool.or_eq_true] at hx
        rcases hx with hx | hx
        · exact absurd (eq_of_beq hx).symm has
        · exact hx
  · have hinPf : inP = false := by
      cases hIv : inP
      · rfl
      · exact absurd (hinP.mp hIv).1 hP
    have hPf : strStarts q.name "user-policy-" = false := by
      cases hPv : strStarts q.name "user-policy-"
      · rfl
      · exact absurd hPv hP
    simp [hinPf, hPf]

/-- Helper: Boolean membership on lists of attachment pairs. -/
theorem contains_iff_mem_pairs (l : List (String × String)) (a : String × String) :
    l.contains a = true ↔ a ∈ l := by
  unfold List.contains
  exact List.elem_iff

/-- Helper: a teardown over no sockets deletes no policy. -/
theorem delPred_nil (att : List (String × String)) (q : Policy) :
    delPred att [] q = false := by
  unfold delPred
  cases hE : (att.filter (fun a => a.1 == q.id)).isEmpty
  · have hne : att.filter (fun a => a.1 == q.id) ≠ [] := by
      intro hc
      rw [hc] at hE
      simp at hE
    obtain ⟨a, ha⟩ := List.exists_mem_of_ne_nil _ hne
    have hfl : (att.filter (fun a => a.1 == q.id)).all
        (fun a => ([] : List Socket).any (fun s => s.id == a.2)) = false := by
      cases hv : (att.filter (fun a => a.1 == q.id)).all
          (fun a => ([] : List Socket).any (fun s => s.id == a.2))
      · rfl
      · have := (List.all_eq_true.mp hv) a ha
        simp at this
    rw [hfl]
    simp
  · simp

/-- Helper: a search with an unsatisfiable predicate fails. -/
theorem any_const_false {α : Type} (l : List α) : l.any (fun _ => false) = false := by
  cases hv : l.any (fun _ => false)
  · rfl
  · obtain ⟨x, _, hx⟩ := List.any_eq_true.mp hv
    cases hx

/-- Helper: full characterization of the deprovision loop over a sublist of
the stored sockets: every listed socket is deleted, and exactly the personal
policies whose attachments all pointed at listed sockets (and that had at
least one) are eagerly deleted with their attachments. -/
theorem deprovGo_spec :
    ∀ (ss : List Socket) (st : RemoteState),
      ss.Sublist st.sockets →
      (st.sockets.map Socket.id).Nodup →
      (st.policies.map Policy.id).Nodup →
      (∀ x ∈ st.sockets, x.id ≠ "") →
      (∀ p ∈ st.policies, p.id ≠ "") →
      deprovGo (ss.map (fun x => (x, attachedPolicies st x.id))) st =
        .ok { st with
          sockets := st.sockets.filter (fun x => !(ss.any (fun y => y.id == x.id)))
          policies := st.policies.filter (fun q => !(delPred st.attachments ss q))
          attachments := st.attachments.filter
            (fun a => !(ss.any (fun y => y.id == a.2)) &&
              !(st.policies.any (fun q => q.id == a.1 && delPred st.attachments ss q))) } := by
  intro ss
  induction ss with
  | nil =>
    intro st _ _ _ _ _
    simp [deprovGo, delPred_nil, any_const_false]
  | cons s rest ih =>
    intro st hsub hndS hndP hneS hneP
    have hsmem : s ∈ st.sockets := hsub.subset (List.mem_cons_self s rest)
    have hrestsub : rest.Sublist st.sockets := List.sublist_of_cons_sublist hsub
    have hsid_ne : s.id ≠ "" := hneS s hsmem
    have hids_nd : ((s :: rest).map Socket.id).Nodup :=
      List.Nodup.sublist (List.Sublist.map Socket.id hsub) hndS
    have hrest_ne : ∀ x ∈ rest, x.id ≠ s.id := by
      rw [List.map_cons, List.nodup_cons] at hids_nd
      intro x hx hc
      exact hids_nd.1 (hc ▸ List.mem_map_of_mem Socket.id hx)
    simp only [List.map_cons, deprovGo]
    set st1 : RemoteState :=
      { sockets := st.sockets.filter (fun x => x.id != s.id)
        policies := st.policies
        attachments := st.attachments.filter (fun a => a.2 != s.id)
        nextId := st.nextId
        denyPolicyCreate := st.denyPolicyCreate } with hst1
    have hdelS : deleteSocket s.id st = .ok st1 := by
      unfold deleteSocket
      rw [if_neg hsid_ne]
    rw [hdelS]
    simp only [exceptBind_ok]
    set personal : List Policy :=
      (attachedPolicies st s.id).filter (fun p => strStarts p.name "user-policy-")
      with hpersonal
    have hpersub : personal.Sublist st1.policies :=
      (List.filter_sublist _).trans (List.filter_sublist _)
    have hclean := policyCleanup_spec personal st1 hpersub hndP hneP
    rw [hclean]
    set stC : RemoteState :=
      { sockets := st.sockets.filter (fun x => x.id != s.id)
        policies := st.policies.filter
          (fun q => !(personal.any (fun p => p.id == q.id) && (pAtt st1 q.id).isEmpty))
        attachments := st.attachments.filter (fun a => a.2 != s.id)
        nextId := st.nextId
        denyPolicyCreate := st.denyPolicyCreate } with hstC
    have hinPfact : ∀ q ∈ st.policies,
        ((personal.any (fun p => p.id == q.id)) = true ↔
          (strStarts q.name "user-policy-" = true ∧ (q.id, s.id) ∈ st.attachments)) := by
      intro q hq
      constructor
      · intro hany
        obtain ⟨q', hq', hbeq⟩ := List.any_eq_true.mp hany
        have hq'per : strStarts q'.name "user-policy-" = true := (List.mem_filter.mp hq').2
        have hq'att : q' ∈ attachedPolicies st s.id := (List.mem_filter.mp hq').1
        have hq'pol : q' ∈ st.policies := (List.mem_filter.mp hq'att).1
        have hq'c := (List.mem_filter.mp hq'att).2
        have hqq : q' = q := nodup_key_eq hndP hq'pol hq (eq_of_beq hbeq)
        rw [hqq] at hq'per hq'c
        exact ⟨hq'per, (contains_iff_mem_pairs _ _).mp hq'c⟩
      · rintro ⟨hPname, hCmem⟩
        refine List.any_eq_true.mpr ⟨q, ?_, by simp⟩
        refine List.mem_filter.mpr ⟨?_, hPname⟩
        refine List.mem_filter.mpr ⟨hq, ?_⟩
        exact (contains_iff_mem_pairs _ _).mpr hCmem
    have hmaster : ∀ q ∈ st.policies,
        (!(delPred stC.attachments rest q) &&
          !(personal.any (fun p => p.id == q.id) && (pAtt st1 q.id).isEmpty)) =
        !(delPred st.attachments (s :: rest) q) := by
      intro q hq
      have h1 := teardown_del_pointwise st.attachments s rest q
        (personal.any (fun p => p.id == q.id)) (hinPfact q hq)
      rw [Bool.and_comm]
      exact h1
    have hitems : rest.map (fun x => (x, attachedPolicies st x.id)) =
        rest.map (fun x => (x, attachedPolicies stC x.id)) := by
      refine List.map_congr_left ?_
      intro r hr
      have hrs : r.id ≠ s.id := hrest_ne r hr
      refine congrArg (fun l => (r, l)) ?_
      show st.policies.filter (fun p => st.attachments.contains (p.id, r.id)) =
        (st.policies.filter
          (fun q => !(personal.any (fun p => p.id == q.id) && (pAtt st1 q.id).isEmpty))).filter
          (fun p => (st.attachments.filter (fun a => a.2 != s.id)).contains (p.id, r.id))
      rw [List.filter_filter]
      refine List.filter_congr ?_
      intro p hp
      have hcont : (st.attachments.filter (fun a => a.2 != s.id)).contains (p.id, r.id) =
          st.attachments.contains (p.id, r.id) := by
        rw [Bool.eq_iff_iff, contains_iff_mem_pairs, contains_iff_mem_pairs]
        constructor
        · exact fun h => (List.mem_filter.mp h).1
        · intro h
          exact List.mem_filter.mpr ⟨h, by simpa using hrs⟩
      rw [hcont]
      cases hc : st.attachments.contains (p.id, r.id)
      · simp
      · have hmem : (p.id, r.id) ∈ st.attachments := (contains_iff_mem_pairs _ _).mp hc
        have hmem1 : (p.id, r.id) ∈ pAtt st1 p.id := by
          refine List.mem_filter.mpr ⟨?_, by simp⟩
          show (p.id, r.id) ∈ st.attachments.filter (fun a => a.2 != s.id)
          exact List.mem_filter.mpr ⟨hmem, by simpa using hrs⟩
        have hE'f : (pAtt st1 p.id).isEmpty = false := by
          cases hv : (pAtt st1 p.id).isEmpty
          · rfl
          · rw [List.isEmpty_iff.mp hv] at hmem1
            cases hmem1
        simp [hE'f]
    rw [hitems]
    have hsub' : rest.Sublist stC.sockets := by
      show rest.Sublist (st.sockets.filter (fun x => x.id != s.id))
      have heq : rest.filter (fun x => x.id != s.id) = rest :=
        List.filter_eq_self.mpr (fun x hx => by simpa using hrest_ne x hx)
      have hfs := List.Sublist.filter (fun x => x.id != s.id) hrestsub
      rw [heq] at hfs
      exact hfs
    have hndS' : (stC.sockets.map Socket.id).Nodup :=
      List.Nodup.sublist (List.Sublist.map Socket.id (List.filter_sublist _)) hndS
    have hndP' : (stC.policies.map Policy.id).Nodup :=
      List.Nodup.sublist (List.Sublist.map Policy.id (List.filter_sublist _)) hndP
    have hneS' : ∀ x ∈ stC.sockets, x.id ≠ "" := fun x hx => hneS x (List.mem_filter.mp hx).1
    have hneP' : ∀ p ∈ stC.policies, p.id ≠ "" := fun p hp => hneP p (List.mem_filter.mp hp).1
    rw [ih stC hsub' hndS' hndP' hneS' hneP']
    refine congrArg Except.ok ?_
    congr 1
    · show (st.sockets.filter (fun x => x.id != s.id)).filter
          (fun x => !(rest.any (fun y => y.id == x.id))) =
        st.sockets.filter (fun x => !((s :: rest).any (fun y => y.id == x.id)))
      rw [List.filter_filter]
      refine List.filter_congr ?_
      intro x _
      by_cases hxs : s.id = x.id
      · have h2 : (x.id != s.id) = false := by simp [hxs.symm]
        simp [List.any_cons, hxs, h2]
      · have h1 : (s.id == x.id) = false := by simp [hxs]
        have h2 : (x.id != s.id) = true := by
          simp only [bne_iff_ne, ne_eq]
          exact fun hc => hxs hc.symm
        simp [List.any_cons, h1, h2]
    · show (st.policies.filter
            (fun q => !(personal.any (fun p => p.id == q.id) && (pAtt st1 q.id).isEmpty))).filter
          (fun q => !(delPred stC.attachments rest q)) =
        st.policies.filter (fun q => !(delPred st.attachments (s :: rest) q))
      rw [List.filter_filter]
      exact List.filter_congr hmaster
    · show (st.attachments.filter (fun a => a.2 != s.id)).filter
          (fun a => !(rest.any (fun y => y.id == a.2)) &&
            !(stC.policies.any (fun q => q.id == a.1 && delPred stC.attachments rest q))) =
        st.attachments.filter
          (fun a => !((s :: rest).any (fun y => y.id == a.2)) &&
            !(st.policies.any (fun q => q.id == a.1 && delPred st.attachments (s :: rest) q)))
      rw [List.filter_filter]
      refine List.filter_congr ?_
      intro a ha
      by_cases has : a.2 = s.id
      · have h2 : (a.2 != s.id) = false := by simp [has]
        have h1 : (s.id == a.2) = true := by simp [has]
        simp [List.any_cons, h1, h2]
      · have h2 : (a.2 != s.id) = true := by
          simp only [bne_iff_ne, ne_eq]
          exact has
        have h1 : (s.id == a.2) = false := by
          rw [beq_eq_false_iff_ne]
          exact fun hc => has hc.symm
        have hPC : (stC.policies.any
              (fun q => q.id == a.1 && delPred stC.attachments rest q)) =
            (st.policies.any
              (fun q => q.id == a.1 && delPred st.attachments (s :: rest) q)) := by
          rw [Bool.eq_iff_iff, List.any_eq_true, List.any_eq_true]
          constructor
          · rintro ⟨q, hqPC, hconj⟩
            obtain ⟨hq, hkeep⟩ := List.mem_filter.mp hqPC
            simp only [Bool.and_eq_true] at hconj
            obtain ⟨hqa, hdel'⟩ := hconj
            have hm := hmaster q hq
            rw [hdel'] at hm
            simp only [Bool.not_true, Bool.false_and] at hm
            refine ⟨q, hq, ?_⟩
            simp only [Bool.and_eq_true]
            refine ⟨hqa, ?_⟩
            cases hv : delPred st.attachments (s :: rest) q
            · rw [hv] at hm
              simp at hm
            · rfl
          · rintro ⟨q, hq, hconj⟩
            simp only [Bool.and_eq_true] at hconj
            obtain ⟨hqa, hdel⟩ := hconj
            have hqa' : q.id = a.1 := eq_of_beq hqa
            have hmemA' : a ∈ pAtt st1 q.id := by
              refine List.mem_filter.mpr ⟨?_, by simp [hqa'.symm]⟩
              show a ∈ st.attachments.filter (fun a => a.2 != s.id)
              exact List.mem_filter.mpr ⟨ha, h2⟩
            have hE'f : (pAtt st1 q.id).isEmpty = false := by
              cases hv : (pAtt st1 q.id).isEmpty
              · rfl
              · rw [List.isEmpty_iff.mp hv] at hmemA'
                cases hmemA'
            have hkeep : (!(personal.any (fun p => p.id == q.id) &&
                (pAtt st1 q.id).isEmpty)) = true := by
              simp [hE'f]
            have hm := hmaster q hq
            rw [hkeep, Bool.and_true] at hm
            have hdel'eq : delPred stC.attachments rest q =
                delPred st.attachments (s :: rest) q := by
              have hmm := congrArg (fun b => !b) hm
              simpa using hmm
            refine ⟨q, List.mem_filter.mpr ⟨hq, hkeep⟩, ?_⟩
            simp only [Bool.and_eq_true]
            exact ⟨hqa, by rw [hdel'eq]; exact hdel⟩
        rw [hPC]
        simp only [List.any_cons, h1, h2, Bool.and_true, Bool.false_or]

/-- Counterexample to C6 as stated: against the spec's own example state,
`teardown("c1234567")` deletes and counts two endpoints although no
endpoint name starts with the short id — the deletion criterion is
substring containment, not a name-start match. -/
theorem teardown_short_id_not_a_name_start :
    performDeprovision "c1234567" stTeardown =
      .ok ({ sockets := [], policies := [], attachments := [], nextId := 10,
             denyPolicyCreate := false }, 2) ∧
    strStarts "shell-c1234567" "c1234567" = false ∧
    (stTeardown.sockets.filter (fun s => strStarts s.name "c1234567")).length = 0 ∧
    (2 : Nat) ≠ 0 := by
  decide

/-- C6 (amended): `teardown(workloadId)` deletes every endpoint whose name
contains the workload's 8-character short id, returns their number, and
eagerly deletes exactly the personal policies that had at least one
attachment and whose attachments all pointed at deleted endpoints. -/
theorem teardown_deletes_matching_and_orphans (cid : String) (st : RemoteState)
    (hndS : (st.sockets.map Socket.id).Nodup)
    (hndP : (st.policies.map Policy.id).Nodup)
    (hneS : ∀ x ∈ st.sockets, x.id ≠ "")
    (hneP : ∀ p ∈ st.policies, p.id ≠ "") :
    performDeprovision cid st =
      .ok ({ st with
          sockets := st.sockets.filter
            (fun x => !(strHasSub x.name (strTake cid 8)))
          policies := st.policies.filter (fun q => !(teardownDeletes st
            (st.sockets.filter (fun x => strHasSub x.name (strTake cid 8))) q))
          attachments := st.attachments.filter (fun a =>
            !((st.sockets.filter (fun x => strHasSub x.name (strTake cid 8))).any
                (fun y => y.id == a.2)) &&
            !(st.policies.any (fun q => q.id == a.1 && teardownDeletes st
                (st.sockets.filter (fun x => strHasSub x.name (strTake cid 8))) q))) },
        (st.sockets.filter (fun x => strHasSub x.name (strTake cid 8))).length) := by
  set shortId := strTake cid 8 with hshort
  set ms := st.sockets.filter (fun x => strHasSub x.name shortId) with hms
  unfold performDeprovision
  have hlist : listSocketsByName shortId st =
      ms.map (fun s => (s, attachedPolicies st s.id)) := rfl
  simp only [hlist]
  rw [deprovGo_spec ms st (List.filter_sublist _) hndS hndP hneS hneP]
  simp only [exceptBind_ok, List.length_map]
  refine congrArg (fun x => Except.ok (x, ms.length)) ?_
  have hanyx : ∀ x ∈ st.sockets,
      (ms.any (fun y => y.id == x.id)) = strHasSub x.name shortId := by
    intro x hx
    rw [Bool.eq_iff_iff, List.any_eq_true]
    constructor
    · rintro ⟨y, hy, hbeq⟩
      have hyS : y ∈ st.sockets := (List.mem_filter.mp hy).1
      have hyM : strHasSub y.name shortId = true := (List.mem_filter.mp hy).2
      have hyx : y = x := nodup_key_eq hndS hyS hx (eq_of_beq hbeq)
      rw [← hyx]
      exact hyM
    · intro hm
      exact ⟨x, List.mem_filter.mpr ⟨hx, hm⟩, by simp⟩
  congr 1
  refine List.filter_congr ?_
  intro x hx
  rw [hanyx x hx]

/-- Witness for C6 (amended) at the spec's example state: both endpoints
and the now-orphaned personal policy are deleted, and the count is 2. -/
theorem teardown_deletes_matching_and_orphans_witness :
    ((stTeardown.sockets.map Socket.id).Nodup) ∧
    ((stTeardown.policies.map Policy.id).Nodup) ∧
    (∀ x ∈ stTeardown.sockets, x.id ≠ "") ∧
    (∀ p ∈ stTeardown.policies, p.id ≠ "") ∧
    performDeprovision "c1234567" stTeardown =
      .ok ({ stTeardown with
          sockets := stTeardown.sockets.filter
            (fun x => !(strHasSub x.name (strTake "c1234567" 8)))
          policies := stTeardown.policies.filter (fun q => !(teardownDeletes stTeardown
            (stTeardown.sockets.filter
              (fun x => strHasSub x.name (strTake "c1234567" 8))) q))
          attachments := stTeardown.attachments.filter (fun a =>
            !((stTeardown.sockets.filter
                (fun x => strHasSub x.name (strTake "c1234567" 8))).any
                  (fun y => y.id == a.2)) &&
            !(stTeardown.policies.any (fun q => q.id == a.1 &&
              teardownDeletes stTeardown
                (stTeardown.sockets.filter
                  (fun x => strHasSub x.name (strTake "c1234567" 8))) q))) },
        (stTeardown.sockets.filter
          (fun x => strHasSub x.name (strTake "c1234567" 8))).length) :=
  ⟨by decide, by decide, by decide, by decide,
    teardown_deletes_matching_and_orphans "c1234567" stTeardown
      (by decide) (by decide) (by decide) (by decide)⟩
